import Mathlib

set_option maxHeartbeats 1000000

set_option maxRecDepth 4000

namespace MPU

/-- Last `n` elements of a list, mirroring the Python slice `l[-n:]`. -/
def takeLast {α : Type} (n : ℕ) (l : List α) : List α := l.drop (l.length - n)

/-! Constants fixed in `MPU6050Reader.__init__` (serial_reader.py lines 20-32). -/

def ACCEL_SCALE : ℚ := 16384

def GYRO_SCALE : ℚ := 131

def buffer_size : ℕ := 256

def sampling_rate : ℚ := 20

def fft_window : ℕ := 128

/-- Raw integer sample produced by `parse_data` from one input line. -/
structure RawSample where
  timestamp_ms : ℤ
  ax_raw : ℤ
  ay_raw : ℤ
  az_raw : ℤ
  gx_raw : ℤ
  gy_raw : ℤ
  gz_raw : ℤ
  deriving DecidableEq, Inhabited

/-- serial_reader.py line 34: `raw_value / self.ACCEL_SCALE`. Floats are
embedded as exact rationals. -/
def convert_to_g (raw_value : ℤ) : ℚ := raw_value / ACCEL_SCALE

/-- serial_reader.py line 37: `raw_value / self.GYRO_SCALE`. -/
def convert_to_dps (raw_value : ℤ) : ℚ := raw_value / GYRO_SCALE

/-- The four parallel window buffers of `MPU6050Reader` (lines 25-28). -/
structure BufState where
  ax_buffer : List ℚ
  ay_buffer : List ℚ
  az_buffer : List ℚ
  timestamps : List ℤ
  deriving DecidableEq, Inhabited

def initState : BufState := ⟨[], [], [], []⟩

/-- serial_reader.py lines 124-133: append the converted sample to each of the
four buffers, then pop the front element of each if `len(ax_buffer)` exceeds
`buffer_size`. -/
def push (s : BufState) (r : RawSample) : BufState :=
  let ax1 := s.ax_buffer ++ [convert_to_g r.ax_raw]
  let ay1 := s.ay_buffer ++ [convert_to_g r.ay_raw]
  let az1 := s.az_buffer ++ [convert_to_g r.az_raw]
  let ts1 := s.timestamps ++ [r.timestamp_ms]
  if buffer_size < ax1.length then ⟨ax1.tail, ay1.tail, az1.tail, ts1.tail⟩
  else ⟨ax1, ay1, az1, ts1⟩

/-- `np.mean` of a rational list (sum divided by length; `0/0 = 0` for `[]`,
which is never hit at the call sites, all gated on nonemptiness). -/
def qmean (l : List ℚ) : ℚ := l.sum / l.length

/-- `np.std(l)**2`, the population variance `mean((x - mean)**2)`. -/
def qvar (l : List ℚ) : ℚ := (l.map (fun x => (x - qmean l) ^ 2)).sum / l.length

/-- Rational test for `Real.sqrt b < a`: true exactly when `0 < a` and
`b < a ^ 2` (see lemma `gtSqrt_iff`). Used to express the float comparison
`value > mean + threshold * std` of `detect_peaks` exactly over `ℚ`. -/
def gtSqrt (a b : ℚ) : Bool := decide (0 < a ∧ b < a ^ 2)

/-- serial_reader.py lines 88-101 (`detect_peaks`): indices `i` in
`range(1, len-1)` with `buffer[i]` strictly above both neighbours and above
`mean + threshold * std`. The float comparison `x > m + t*sqrt(v)` (for the
call-site threshold `t = 2 ≥ 0`) is encoded rationally as
`gtSqrt (x - m) (t^2 * v)`; lemma `detect_peaks_mem` recovers the original
real-number form. -/
def detect_peaks (buffer : List ℚ) (threshold : ℚ) : List ℕ :=
  if buffer.length < 3 then []
  else
    let m := qmean buffer
    let v := qvar buffer
    (List.range' 1 (buffer.length - 2)).filter fun i =>
      decide (buffer.getD (i - 1) 0 < buffer.getD i 0) &&
      decide (buffer.getD (i + 1) 0 < buffer.getD i 0) &&
      gtSqrt (buffer.getD i 0 - m) (threshold ^ 2 * v)

/-- serial_reader.py lines 83-86: `np.sqrt(np.mean(np.square(buffer)))`,
with `0` for an empty buffer. -/
noncomputable def compute_rms (buffer : List ℝ) : ℝ :=
  if buffer.isEmpty then 0
  else Real.sqrt ((buffer.map fun x => x ^ 2).sum / buffer.length)

/-- The per-sample vector magnitude `sqrt(x**2 + y**2 + z**2)` (lines 135-137,
143-146, 152-155). -/
noncomputable def magnitudeR (x y z : ℚ) : ℝ :=
  Real.sqrt ((x ^ 2 + y ^ 2 + z ^ 2 : ℚ) : ℝ)

/-- The list `[sqrt(x**2+y**2+z**2) for x, y, z in zip(ax, ay, az)]`. -/
noncomputable def magnitudeList (xs ys zs : List ℚ) : List ℝ :=
  (xs.zip (ys.zip zs)).map fun p => magnitudeR p.1 p.2.1 p.2.2

/-- `scipy.signal.windows.hamming(M)` coefficient
`0.54 - 0.46 * cos(2*pi*n/(M-1))`. -/
noncomputable def hamming (M : ℕ) (n : ℕ) : ℝ :=
  0.54 - 0.46 * Real.cos (2 * Real.pi * n / ((M : ℝ) - 1))

/-- Magnitude of the `k`-th bin of the real-input discrete Fourier transform
of `w 0, ..., w (N-1)` (the semantics of `abs(np.fft.rfft(...))[k]`). -/
noncomputable def dft_mag (w : ℕ → ℝ) (N k : ℕ) : ℝ :=
  Real.sqrt
    ((∑ n ∈ Finset.range N, w n * Real.cos (2 * Real.pi * k * n / N)) ^ 2 +
     (∑ n ∈ Finset.range N, w n * Real.sin (2 * Real.pi * k * n / N)) ^ 2)

/-- serial_reader.py lines 69-81 (`compute_fft`): empty lists below
`fft_window`, otherwise the `fft_window/2 + 1` bin frequencies
`k * sampling_rate / fft_window` (`np.fft.rfftfreq`) and the magnitudes of the
real FFT of the Hamming-windowed last `fft_window` samples. -/
noncomputable def compute_fft (signal_data : List ℚ) : List ℚ × List ℝ :=
  if signal_data.length < fft_window then ([], [])
  else
    let seg := takeLast fft_window signal_data
    let wdata : ℕ → ℝ := fun n => (seg.getD n 0 : ℝ) * hamming fft_window n
    ((List.range (fft_window / 2 + 1)).map fun k =>
        (k : ℚ) * sampling_rate / (fft_window : ℚ),
     (List.range (fft_window / 2 + 1)).map fun k => dft_mag wdata fft_window k)

/-- Inner loop of `scipy.signal._peak_finding_utils._local_maxima_1d`: advance
`j` while `j < imax` and `x j = v` (scanning past a plateau of value `v`).
Any `fuel ≥ imax - j` gives the exact loop result; call sites pass `imax`. -/
def plEnd {α : Type} [LinearOrder α] (x : ℕ → α) (imax : ℕ) (v : α) :
    ℕ → ℕ → ℕ
  | 0, j => j
  | fuel + 1, j => if j < imax ∧ x j = v then plEnd x imax v fuel (j + 1) else j

/-- Outer loop of `_local_maxima_1d`: walk `i` from `1` to `imax - 1`
(`imax = length - 1`); when `x (i-1) < x i`, scan the plateau ahead; if the
element after the plateau is below `x i`, record the plateau midpoint and
resume after the plateau. Any `fuel ≥ imax - i` gives the exact loop result;
`localMaxima` passes `length ≥ imax`. -/
def lmaxAux {α : Type} [LinearOrder α] (x : ℕ → α) (imax : ℕ) :
    ℕ → ℕ → List ℕ
  | 0, _ => []
  | fuel + 1, i =>
    if i < imax then
      if x (i - 1) < x i then
        let j := plEnd x imax (x i) imax (i + 1)
        if x j < x i then (i + (j - 1)) / 2 :: lmaxAux x imax fuel (j + 1)
        else lmaxAux x imax fuel (i + 1)
      else lmaxAux x imax fuel (i + 1)
    else []

/-- All local maxima of `xs` in the sense of scipy `_local_maxima_1d`
(plateau midpoints, endpoints excluded). `d` is an out-of-range default that
is never read by the walk. -/
def localMaxima {α : Type} [LinearOrder α] (xs : List α) (d : α) : List ℕ :=
  lmaxAux (fun i => xs.getD i d) (xs.length - 1) xs.length 1

/-- `scipy.signal.find_peaks(xs, height=h)[0]`: local maxima whose value is
at least `h` (the scipy height filter keeps peaks with `h <= x[peak]`). -/
def find_peaks {α : Type} [LinearOrder α] (xs : List α) (d : α) (h : α) :
    List ℕ :=
  (localMaxima xs d).filter fun p => decide (h ≤ xs.getD p d)

/-- Python `max` of a nonempty list (`d` returned for `[]`, never hit at the
call site, which is guarded by `if fft_amp`). -/
def listMax {α : Type} [LinearOrder α] (d : α) : List α → α
  | [] => d
  | a :: t => t.foldl max a

/-- serial_reader.py lines 162-167: run `find_peaks` on `fft_amp[1:]` with
height `max(fft_amp) * 0.1` (maximum over the WHOLE spectrum, DC bin
included), and report `(fft_freq[i+1], fft_amp[i+1])` for each peak index `i`
of the slice. -/
def fft_peaks_of {α : Type} [LinearOrderedField α]
    (fft_freq : List ℚ) (fft_amp : List α) : List (ℚ × α) :=
  (find_peaks (fft_amp.drop 1) 0 (listMax 0 fft_amp * (1 / 10))).map fun i =>
    (fft_freq.getD (i + 1) 0, fft_amp.getD (i + 1) 0)

/-- The analysis frame built by `process_data` (lines 103-175). Fields that
the Python dict only acquires conditionally are `Option`s; `none` means the
key is absent. The `date`/`time` strings (wall-clock formatting) are not
modelled. -/
structure Frame where
  timestamp_ms : ℤ
  ax_raw : ℤ
  ay_raw : ℤ
  az_raw : ℤ
  gx_raw : ℤ
  gy_raw : ℤ
  gz_raw : ℤ
  ax_g : ℚ
  ay_g : ℚ
  az_g : ℚ
  gx_dps : ℚ
  gy_dps : ℚ
  gz_dps : ℚ
  magnitude : ℝ
  mean_ax : Option ℚ
  mean_ay : Option ℚ
  mean_az : Option ℚ
  mean_magnitude : Option ℝ
  rms_ax : Option ℝ
  rms_ay : Option ℝ
  rms_az : Option ℝ
  rms_magnitude : Option ℝ
  fft_freq : Option (List ℚ)
  fft_amp : Option (List ℝ)
  fft_peaks : Option (List (ℚ × ℝ))
  peaks_detected : Option Bool
  peak_values : Option (List ℚ)

/-- serial_reader.py lines 103-175 (`process_data`): convert the raw sample,
push it into the four buffers, and build the frame; each gated field is
`some _` exactly when its Python `if` fires. -/
noncomputable def process_data (s : BufState) (raw_data : RawSample) :
    BufState × Frame :=
  let axg := convert_to_g raw_data.ax_raw
  let ayg := convert_to_g raw_data.ay_raw
  let azg := convert_to_g raw_data.az_raw
  let s' := push s raw_data
  let n := s'.ax_buffer.length
  let magL := magnitudeList s'.ax_buffer s'.ay_buffer s'.az_buffer
  let fftp := compute_fft s'.ax_buffer
  let tpeaks := detect_peaks s'.ax_buffer 2
  (s',
   { timestamp_ms := raw_data.timestamp_ms
     ax_raw := raw_data.ax_raw
     ay_raw := raw_data.ay_raw
     az_raw := raw_data.az_raw
     gx_raw := raw_data.gx_raw
     gy_raw := raw_data.gy_raw
     gz_raw := raw_data.gz_raw
     ax_g := axg
     ay_g := ayg
     az_g := azg
     gx_dps := convert_to_dps raw_data.gx_raw
     gy_dps := convert_to_dps raw_data.gy_raw
     gz_dps := convert_to_dps raw_data.gz_raw
     magnitude := magnitudeR axg ayg azg
     mean_ax := if s'.ax_buffer.isEmpty then none else some (qmean s'.ax_buffer)
     mean_ay := if s'.ax_buffer.isEmpty then none else some (qmean s'.ay_buffer)
     mean_az := if s'.ax_buffer.isEmpty then none else some (qmean s'.az_buffer)
     mean_magnitude :=
       if s'.ax_buffer.isEmpty then none else some (magL.sum / magL.length)
     rms_ax :=
       if 10 ≤ n then some (compute_rms (s'.ax_buffer.map fun q => (q : ℝ)))
       else none
     rms_ay :=
       if 10 ≤ n then some (compute_rms (s'.ay_buffer.map fun q => (q : ℝ)))
       else none
     rms_az :=
       if 10 ≤ n then some (compute_rms (s'.az_buffer.map fun q => (q : ℝ)))
       else none
     rms_magnitude := if 10 ≤ n then some (compute_rms magL) else none
     fft_freq := if fft_window ≤ n then some fftp.1 else none
     fft_amp := if fft_window ≤ n then some fftp.2 else none
     fft_peaks :=
       if fft_window ≤ n then
         if ¬fftp.2.isEmpty ∧ 5 < fftp.2.length then
           some (fft_peaks_of fftp.1 fftp.2)
         else none
       else none
     peaks_detected :=
       if 20 ≤ n then (if tpeaks.isEmpty then none else some true) else none
     peak_values :=
       if 20 ≤ n then
         if tpeaks.isEmpty then none
         else some ((takeLast 3 tpeaks).map fun i => s'.ax_buffer.getD i 0)
       else none })

/-- The buffer state after feeding a whole list of raw samples through
`process_data`, starting from the empty buffers. -/
def runState (l : List RawSample) : BufState := l.foldl push initState

/-! Decoder for the flat comma-separated encoding (serial_reader.py lines
53-64, with the enclosing `try/except` of lines 41-67 reflected by the
`Option` result). A line is modelled as its character list. -/

/-- Python whitespace characters stripped by `str.strip()`. -/
def isPyWS (c : Char) : Bool :=
  c == ' ' || c == '\t' || c == '\n' || c == '\r' || c == '\x0b' || c == '\x0c'

/-- `str.strip()`: drop leading and trailing whitespace. -/
def trimChars (cs : List Char) : List Char :=
  ((cs.dropWhile isPyWS).reverse.dropWhile isPyWS).reverse

/-- `str.split(',')`: split at every comma; adjacent commas give empty
fields, and the empty input gives one empty field. -/
def splitComma : List Char → List (List Char)
  | [] => [[]]
  | c :: rest =>
    if c = ',' then [] :: splitComma rest
    else
      match splitComma rest with
      | [] => [[c]]
      | g :: gs => (c :: g) :: gs

/-- Numeric value of a digit string (most significant first). -/
def digitsVal (cs : List Char) : ℕ :=
  cs.foldl (fun a c => 10 * a + (c.toNat - 48)) 0

/-- Python `int(str)` modelled as: optional surrounding whitespace, an
optional sign, then one or more decimal digits; `none` when the conversion
raises `ValueError`. (Underscore digit grouping and non-ASCII digits are not
modelled.) -/
def pyInt (cs : List Char) : Option ℤ :=
  match trimChars cs with
  | [] => none
  | '+' :: rest =>
    if rest ≠ [] ∧ rest.all Char.isDigit then some (digitsVal rest : ℤ)
    else none
  | '-' :: rest =>
    if rest ≠ [] ∧ rest.all Char.isDigit then some (-(digitsVal rest : ℤ))
    else none
  | t =>
    if t.all Char.isDigit then some (digitsVal t : ℤ) else none

/-- serial_reader.py lines 53-64: the non-JSON branch of `parse_data`. Strip
the line, split on commas; with at least 7 fields convert the first 7 with
`int(...)`; any conversion failure (or fewer than 7 fields) yields `None`
via the surrounding `except`. -/
def parse_flat (line : List Char) : Option RawSample :=
  let parts := splitComma (trimChars line)
  if 7 ≤ parts.length then
    (pyInt (parts.getD 0 [])).bind fun v0 =>
    (pyInt (parts.getD 1 [])).bind fun v1 =>
    (pyInt (parts.getD 2 [])).bind fun v2 =>
    (pyInt (parts.getD 3 [])).bind fun v3 =>
    (pyInt (parts.getD 4 [])).bind fun v4 =>
    (pyInt (parts.getD 5 [])).bind fun v5 =>
    (pyInt (parts.getD 6 [])).bind fun v6 =>
    some ⟨v0, v1, v2, v3, v4, v5, v6⟩
  else none

/-! Embedding of server/server.py: the CSV recording session (lines 71-128
and 211-228) and the websocket broadcast of lines 201-208. -/

/-- One CSV cell: the writer emits strings, integers and floats. -/
inductive Cell where
  | s (v : String)
  | i (v : ℤ)
  | q (v : ℚ)
  deriving DecidableEq, Inhabited

/-- The fields of a processed frame that the recording path reads
(server.py lines 214-227, via `processed_data.get`). Fields the analysis may
not have computed yet are `Option`s. -/
structure RecFrame where
  date : String
  time : String
  timestamp_ms : ℤ
  ax_g : ℚ
  ay_g : ℚ
  az_g : ℚ
  gx_dps : ℚ
  gy_dps : ℚ
  gz_dps : ℚ
  magnitude : ℚ
  mean_magnitude : Option ℚ
  rms_magnitude : Option ℚ
  deriving DecidableEq, Inhabited

/-- The fixed header row written by `start_recording` (server.py lines
91-96). -/
def headerRow : List Cell :=
  [.s "date", .s "timestamp", .s "timestamp_ms",
   .s "ax_g", .s "ay_g", .s "az_g",
   .s "gx_dps", .s "gy_dps", .s "gz_dps",
   .s "magnitude", .s "mean_magnitude", .s "rms_magnitude"]

/-- The data row written per frame (server.py lines 214-227): `get` with
default `0` for `mean_magnitude`/`rms_magnitude` that the analysis has not
produced yet. -/
def rowOf (f : RecFrame) : List Cell :=
  [.s f.date, .s f.time, .i f.timestamp_ms,
   .q f.ax_g, .q f.ay_g, .q f.az_g,
   .q f.gx_dps, .q f.gy_dps, .q f.gz_dps,
   .q f.magnitude, .q (f.mean_magnitude.getD 0), .q (f.rms_magnitude.getD 0)]

/-- Recording state: the `recording` flag and the rows written so far to the
open destination. -/
structure RecState where
  recording : Bool
  rows : List (List Cell)
  deriving DecidableEq

/-- `start_recording` (server.py lines 86-105): open the destination, write
the header row, set `recording = True`. -/
def startRec : RecState := { recording := true, rows := [headerRow] }

/-- The per-frame recording step inside `handle_ws` (server.py lines
211-228): while `recording`, append one data row; otherwise leave the
destination untouched. -/
def appendRec (st : RecState) (f : RecFrame) : RecState :=
  if st.recording then { st with rows := st.rows ++ [rowOf f] } else st

/-- `stop_recording` (server.py lines 110-128): clear the flag and close the
destination, leaving its contents as they are. -/
def stopRec (st : RecState) : RecState := { st with recording := false }

/-- Events acting on the `ui_clients` subscriber set: connect
(`ui_clients.add`, line 167), disconnect (`ui_clients.discard`, line 175),
and a publish in which delivery fails for the subscribers in `fails`
(lines 201-208). -/
inductive HubEvent where
  | register (c : ℕ)
  | unregister (c : ℕ)
  | publish (fails : Finset ℕ)
  deriving DecidableEq

/-- State transition of the subscriber set. For `publish`, the loop of
server.py lines 201-208 collects every client whose `send` raised into
`dead` and discards each of them after the loop. -/
def hubStep (s : Finset ℕ) : HubEvent → Finset ℕ
  | .register c => insert c s
  | .unregister c => s.erase c
  | .publish fails => s \ fails

/-- The delivery attempts made by one event: a publish iterates once over
`set(ui_clients)` (server.py line 202); other events send nothing. Python
iterates a set in an unspecified order; the enumeration is modelled in
ascending order. -/
def attempts (s : Finset ℕ) : HubEvent → List ℕ
  | .publish _ => s.sort (· ≤ ·)
  | _ => []

/-- The set of subscribers whose delivery succeeds in one publish: those
attempted whose `send` does not raise. -/
def delivered (s : Finset ℕ) (fails : Finset ℕ) : Finset ℕ := s \ fails

/-- Subscriber set after a sequence of events. -/
def hubRun (s : Finset ℕ) (evs : List HubEvent) : Finset ℕ := evs.foldl hubStep s

/-- The successful-delivery sets of the publishes in `evs`, in order. -/
def pubDeliveries (s : Finset ℕ) : List HubEvent → List (Finset ℕ)
  | [] => []
  | .register c :: t => pubDeliveries (hubStep s (.register c)) t
  | .unregister c :: t => pubDeliveries (hubStep s (.unregister c)) t
  | .publish fails :: t =>
    delivered s fails :: pubDeliveries (hubStep s (.publish fails)) t

/-! Definitions modelled from the words of the specification, for comparison
with the code-level definitions above. -/

/-- Modelled from the claim wording for spectral peak extraction: the
interior strict local maxima of a list (indices excluding the first and last
element, value strictly above both neighbours). -/
def strictPeaks (xs : List ℚ) : List ℕ :=
  (List.range' 1 (xs.length - 2)).filter fun i =>
    decide (xs.getD (i - 1) 0 < xs.getD i 0) &&
    decide (xs.getD (i + 1) 0 < xs.getD i 0)

/-- Modelled from the claim wording of C3: search the spectrum excluding bin
0 for local maxima whose amplitude EXCEEDS 10 percent of the maximum over
the searched (non-DC) range, reported as (frequency, amplitude) pairs. -/
def claimFftPeaks (fft_freq : List ℚ) (fft_amp : List ℚ) : List (ℚ × ℚ) :=
  ((strictPeaks (fft_amp.drop 1)).filter fun i =>
      decide (listMax 0 (fft_amp.drop 1) * (1 / 10) < (fft_amp.drop 1).getD i 0)).map
    fun i => (fft_freq.getD (i + 1) 0, fft_amp.getD (i + 1) 0)

/-! Concrete inputs used by witnesses and counterexamples. -/

/-- An all-zero raw sample. -/
def rz : RawSample := ⟨0, 0, 0, 0, 0, 0, 0⟩

/-- A 20-sample ax window that is all zeros: no strict local maximum. -/
def zeros20 : List ℚ := List.replicate 20 0

/-- A 20-sample ax window with a single spike at interior index 10. -/
def spiky20 : List ℚ := List.replicate 10 0 ++ [10] ++ List.replicate 9 0

/-- A buffer state one push away from `spiky20` in the ax buffer. -/
def spikyState : BufState :=
  ⟨List.replicate 10 0 ++ [10] ++ List.replicate 8 0,
   List.replicate 19 0, List.replicate 19 0,
   List.replicate 19 (0 : ℤ)⟩

/-- A raw sample whose converted ax value is `1`. -/
def rOne : RawSample := ⟨0, 16384, 0, 0, 0, 0, 0⟩

/-- A raw sample whose converted ax value is `-1`. -/
def rNegOne : RawSample := ⟨1, -16384, 0, 0, 0, 0, 0⟩

/-- Spectrum for the C3 counterexample: a dominant DC bin, and a small
strict local maximum at bin 2 of a 6-bin spectrum. -/
def ceAmps : List ℚ := [100, 0, 1, 0, 0, 0]

/-- Frequencies for the C3 counterexample. -/
def ceFreqs : List ℚ := [0, 1, 2, 3, 4, 5]

/-- Spectrum for the C3 witness: adjacent bins pairwise distinct, two strict
local maxima (bins 2 and 4) above a tenth of the overall maximum. -/
def wAmps : List ℚ := [100, 0, 30, 0, 20, 0, 5]

/-- Frequencies for the C3 witness. -/
def wFreqs : List ℚ := [0, 1, 2, 3, 4, 5, 6]

/-- Example line `1,2,3,4,5,6,7` for the C8 witness. -/
def exLine : List Char :=
  ['1', ',', '2', ',', '3', ',', '4', ',', '5', ',', '6', ',', '7']

/-- Example recorded frame for the C5 witness. -/
def exFrame : RecFrame :=
  { date := "2024-01-01", time := "00:00:00.000", timestamp_ms := 42,
    ax_g := 1, ay_g := 0, az_g := 0, gx_dps := 0, gy_dps := 0, gz_dps := 0,
    magnitude := 1, mean_magnitude := none, rms_magnitude := some 1 }

/-! ### Helper lemmas -/

theorem takeLast_length {α : Type} (n : ℕ) (l : List α) :
    (takeLast n l).length = min n l.length := by
  simp only [takeLast, List.length_drop]
  omega

theorem takeLast_of_le {α : Type} {n : ℕ} {l : List α} (h : l.length ≤ n) :
    takeLast n l = l := by
  simp [takeLast, Nat.sub_eq_zero_of_le h]

theorem takeLast_append_takeLast {α : Type} (n : ℕ) (xs ys : List α) :
    takeLast n (takeLast n xs ++ ys) = takeLast n (xs ++ ys) := by
  unfold takeLast
  rw [List.drop_append_eq_append_drop, List.drop_append_eq_append_drop,
    List.drop_drop]
  simp only [List.length_append, List.length_drop]
  congr 2 <;> omega

theorem takeLast_map {α β : Type} (f : α → β) (n : ℕ) (l : List α) :
    takeLast n (l.map f) = (takeLast n l).map f := by
  simp [takeLast, List.map_drop]

/-- One push, rephrased as keeping the last `buffer_size` elements of each
extended buffer, provided the state satisfies the length invariant. -/
theorem push_eq_takeLast (s : BufState) (r : RawSample)
    (hlen : s.ax_buffer.length ≤ buffer_size)
    (hy : s.ay_buffer.length = s.ax_buffer.length)
    (hz : s.az_buffer.length = s.ax_buffer.length)
    (ht : s.timestamps.length = s.ax_buffer.length) :
    push s r =
      ⟨takeLast buffer_size (s.ax_buffer ++ [convert_to_g r.ax_raw]),
       takeLast buffer_size (s.ay_buffer ++ [convert_to_g r.ay_raw]),
       takeLast buffer_size (s.az_buffer ++ [convert_to_g r.az_raw]),
       takeLast buffer_size (s.timestamps ++ [r.timestamp_ms])⟩ := by
  unfold push
  by_cases h : buffer_size < (s.ax_buffer ++ [convert_to_g r.ax_raw]).length
  · rw [if_pos h]
    simp only [List.length_append, List.length_singleton] at h
    have hax : s.ax_buffer.length = buffer_size := by omega
    simp only [BufState.mk.injEq]
    refine ⟨?_, ?_, ?_, ?_⟩ <;>
      · show List.tail _ = _
        rw [← List.drop_one]
        unfold takeLast
        congr 1
        simp only [List.length_append, List.length_singleton]
        omega
  · rw [if_neg h]
    simp only [List.length_append, List.length_singleton] at h
    simp only [BufState.mk.injEq]
    refine ⟨?_, ?_, ?_, ?_⟩ <;>
      · refine (takeLast_of_le ?_).symm
        simp only [List.length_append, List.length_singleton]
        omega

/-- The central characterization of the sliding window: after feeding any
sample list, each buffer holds exactly the images of the last `buffer_size`
samples, in arrival order. -/
theorem runState_eq (l : List RawSample) :
    runState l =
      ⟨takeLast buffer_size (l.map fun r => convert_to_g r.ax_raw),
       takeLast buffer_size (l.map fun r => convert_to_g r.ay_raw),
       takeLast buffer_size (l.map fun r => convert_to_g r.az_raw),
       takeLast buffer_size (l.map fun r => r.timestamp_ms)⟩ := by
  induction l using List.reverseRecOn with
  | nil => rfl
  | append_singleton l r ih =>
      have hstep : runState (l ++ [r]) = push (runState l) r := by
        simp [runState, List.foldl_append]
      rw [hstep, ih, push_eq_takeLast] <;>
        simp only [takeLast_length, List.length_map, List.map_append,
          List.map_cons, List.map_nil]
      · simp only [BufState.mk.injEq]
        exact ⟨takeLast_append_takeLast .., takeLast_append_takeLast ..,
          takeLast_append_takeLast .., takeLast_append_takeLast ..⟩
      · omega

theorem runState_append (l : List RawSample) (r : RawSample) :
    runState (l ++ [r]) = push (runState l) r := by
  simp [runState, List.foldl_append]

theorem isSome_ite {α : Type} (c : Prop) [Decidable c] (a : α) :
    (if c then some a else none).isSome = true ↔ c := by
  by_cases h : c <;> simp [h]

theorem compute_fft_amp_length (sig : List ℚ) (h : fft_window ≤ sig.length) :
    (compute_fft sig).2.length = fft_window / 2 + 1 := by
  rw [compute_fft, if_neg (by omega)]
  simp

/-! Projection lemmas for `process_data`, each definitional. -/

theorem pd_fst (s : BufState) (r : RawSample) : (process_data s r).1 = push s r := rfl

theorem pd_mean_magnitude (s : BufState) (r : RawSample) :
    (process_data s r).2.mean_magnitude =
      if (push s r).ax_buffer.isEmpty then none
      else
        some ((magnitudeList (push s r).ax_buffer (push s r).ay_buffer
            (push s r).az_buffer).sum /
          (magnitudeList (push s r).ax_buffer (push s r).ay_buffer
            (push s r).az_buffer).length) := rfl

theorem pd_mean_ax (s : BufState) (r : RawSample) :
    (process_data s r).2.mean_ax =
      if (push s r).ax_buffer.isEmpty then none
      else some (qmean (push s r).ax_buffer) := rfl

theorem pd_mean_ay (s : BufState) (r : RawSample) :
    (process_data s r).2.mean_ay =
      if (push s r).ax_buffer.isEmpty then none
      else some (qmean (push s r).ay_buffer) := rfl

theorem pd_mean_az (s : BufState) (r : RawSample) :
    (process_data s r).2.mean_az =
      if (push s r).ax_buffer.isEmpty then none
      else some (qmean (push s r).az_buffer) := rfl

theorem pd_rms_ax (s : BufState) (r : RawSample) :
    (process_data s r).2.rms_ax =
      if 10 ≤ (push s r).ax_buffer.length then
        some (compute_rms ((push s r).ax_buffer.map fun q => (q : ℝ)))
      else none := rfl

theorem pd_rms_ay (s : BufState) (r : RawSample) :
    (process_data s r).2.rms_ay =
      if 10 ≤ (push s r).ax_buffer.length then
        some (compute_rms ((push s r).ay_buffer.map fun q => (q : ℝ)))
      else none := rfl

theorem pd_rms_az (s : BufState) (r : RawSample) :
    (process_data s r).2.rms_az =
      if 10 ≤ (push s r).ax_buffer.length then
        some (compute_rms ((push s r).az_buffer.map fun q => (q : ℝ)))
      else none := rfl

theorem pd_rms_magnitude (s : BufState) (r : RawSample) :
    (process_data s r).2.rms_magnitude =
      if 10 ≤ (push s r).ax_buffer.length then
        some (compute_rms (magnitudeList (push s r).ax_buffer
          (push s r).ay_buffer (push s r).az_buffer))
      else none := rfl

theorem pd_fft_freq (s : BufState) (r : RawSample) :
    (process_data s r).2.fft_freq =
      if fft_window ≤ (push s r).ax_buffer.length then
        some (compute_fft (push s r).ax_buffer).1
      else none := rfl

theorem pd_fft_amp (s : BufState) (r : RawSample) :
    (process_data s r).2.fft_amp =
      if fft_window ≤ (push s r).ax_buffer.length then
        some (compute_fft (push s r).ax_buffer).2
      else none := rfl

theorem pd_fft_peaks (s : BufState) (r : RawSample) :
    (process_data s r).2.fft_peaks =
      if fft_window ≤ (push s r).ax_buffer.length then
        if ¬(compute_fft (push s r).ax_buffer).2.isEmpty ∧
            5 < (compute_fft (push s r).ax_buffer).2.length then
          some (fft_peaks_of (compute_fft (push s r).ax_buffer).1
            (compute_fft (push s r).ax_buffer).2)
        else none
      else none := rfl

theorem pd_peaks_detected (s : BufState) (r : RawSample) :
    (process_data s r).2.peaks_detected =
      if 20 ≤ (push s r).ax_buffer.length then
        if (detect_peaks (push s r).ax_buffer 2).isEmpty then none else some true
      else none := rfl

theorem pd_peak_values (s : BufState) (r : RawSample) :
    (process_data s r).2.peak_values =
      if 20 ≤ (push s r).ax_buffer.length then
        if (detect_peaks (push s r).ax_buffer 2).isEmpty then none
        else
          some ((takeLast 3 (detect_peaks (push s r).ax_buffer 2)).map fun i =>
            (push s r).ax_buffer.getD i 0)
      else none := rfl

/-! ### Claim theorems -/

/-- C1: the sliding window buffers never hold more than the capacity
`buffer_size = 256`; after pushing any sample list, each buffer holds
exactly the images of the last `buffer_size` pushed samples, in arrival
(FIFO) order — the front (oldest) elements are the ones evicted. -/
theorem claim1_sliding_window_capacity (l : List RawSample) :
    (runState l).ax_buffer.length ≤ buffer_size ∧
    (runState l).ay_buffer.length ≤ buffer_size ∧
    (runState l).az_buffer.length ≤ buffer_size ∧
    (runState l).timestamps.length ≤ buffer_size ∧
    (runState l).ax_buffer =
      takeLast buffer_size (l.map fun r => convert_to_g r.ax_raw) ∧
    (runState l).ay_buffer =
      takeLast buffer_size (l.map fun r => convert_to_g r.ay_raw) ∧
    (runState l).az_buffer =
      takeLast buffer_size (l.map fun r => convert_to_g r.az_raw) ∧
    (runState l).timestamps =
      takeLast buffer_size (l.map fun r => r.timestamp_ms) := by
  rw [runState_eq]
  refine ⟨?_, ?_, ?_, ?_, rfl, rfl, rfl, rfl⟩ <;>
    · simp only [takeLast_length, List.length_map]
      omega

/-- C10: after every `process_data` call (whose state component is exactly
`push`), the four buffers are the images of one common suffix of the pushed
samples: they have equal lengths, at most the capacity, and entries at equal
indices come from the same sample, so zipping them pairs values of the same
sample. -/
theorem claim10_buffers_aligned :
    (∀ (s : BufState) (r : RawSample), (process_data s r).1 = push s r) ∧
    ∀ l : List RawSample,
      (runState l).ax_buffer =
        (takeLast buffer_size l).map (fun r => convert_to_g r.ax_raw) ∧
      (runState l).ay_buffer =
        (takeLast buffer_size l).map (fun r => convert_to_g r.ay_raw) ∧
      (runState l).az_buffer =
        (takeLast buffer_size l).map (fun r => convert_to_g r.az_raw) ∧
      (runState l).timestamps =
        (takeLast buffer_size l).map (fun r => r.timestamp_ms) ∧
      (runState l).ax_buffer.length = (runState l).ay_buffer.length ∧
      (runState l).ay_buffer.length = (runState l).az_buffer.length ∧
      (runState l).az_buffer.length = (runState l).timestamps.length ∧
      (runState l).ax_buffer.length ≤ buffer_size ∧
      (runState l).ax_buffer.zip
          ((runState l).ay_buffer.zip (runState l).az_buffer) =
        (takeLast buffer_size l).map fun r =>
          (convert_to_g r.ax_raw, (convert_to_g r.ay_raw, convert_to_g r.az_raw)) := by
  refine ⟨fun s r => rfl, fun l => ?_⟩
  rw [runState_eq]
  refine ⟨takeLast_map .., takeLast_map .., takeLast_map .., takeLast_map ..,
    ?_, ?_, ?_, ?_, ?_⟩
  · simp [takeLast_length]
  · simp [takeLast_length]
  · simp [takeLast_length]
  · simp only [takeLast_length, List.length_map]
    omega
  · rw [takeLast_map, takeLast_map, takeLast_map, List.zip_map', List.zip_map']

/-- C2 (amended): the RMS fields are present iff the post-push window holds
at least 10 samples, and the spectral fields iff it holds at least
`fft_window = 128`; the time-domain peak fields however are present iff the
window holds at least 20 samples AND `detect_peaks` accepts at least one
candidate (see `claim2_counterexample` for the correction). -/
theorem claim2_field_gating (s : BufState) (r : RawSample) :
    ((process_data s r).2.rms_ax.isSome = true ↔
      10 ≤ (push s r).ax_buffer.length) ∧
    ((process_data s r).2.rms_ay.isSome = true ↔
      10 ≤ (push s r).ax_buffer.length) ∧
    ((process_data s r).2.rms_az.isSome = true ↔
      10 ≤ (push s r).ax_buffer.length) ∧
    ((process_data s r).2.rms_magnitude.isSome = true ↔
      10 ≤ (push s r).ax_buffer.length) ∧
    ((process_data s r).2.fft_freq.isSome = true ↔
      fft_window ≤ (push s r).ax_buffer.length) ∧
    ((process_data s r).2.fft_amp.isSome = true ↔
      fft_window ≤ (push s r).ax_buffer.length) ∧
    ((process_data s r).2.fft_peaks.isSome = true ↔
      fft_window ≤ (push s r).ax_buffer.length) ∧
    ((process_data s r).2.peaks_detected.isSome = true ↔
      (20 ≤ (push s r).ax_buffer.length ∧
        detect_peaks (push s r).ax_buffer 2 ≠ [])) ∧
    ((process_data s r).2.peak_values.isSome = true ↔
      (20 ≤ (push s r).ax_buffer.length ∧
        detect_peaks (push s r).ax_buffer 2 ≠ [])) := by
  refine ⟨?_, ?_, ?_, ?_, ?_, ?_, ?_, ?_, ?_⟩
  · rw [pd_rms_ax]; exact isSome_ite _ _
  · rw [pd_rms_ay]; exact isSome_ite _ _
  · rw [pd_rms_az]; exact isSome_ite _ _
  · rw [pd_rms_magnitude]; exact isSome_ite _ _
  · rw [pd_fft_freq]; exact isSome_ite _ _
  · rw [pd_fft_amp]; exact isSome_ite _ _
  · rw [pd_fft_peaks]
    by_cases h : fft_window ≤ (push s r).ax_buffer.length
    · have hlen := compute_fft_amp_length (push s r).ax_buffer h
      have hne : (compute_fft (push s r).ax_buffer).2 ≠ [] := by
        intro hnil
        rw [hnil] at hlen
        simp [fft_window] at hlen
      rw [if_pos h, if_pos]
      · simp [h]
      · refine ⟨?_, ?_⟩
        · simp [List.isEmpty_iff, hne]
        · rw [hlen]; norm_num [fft_window]
    · simp [h]
  · rw [pd_peaks_detected]
    by_cases h : 20 ≤ (push s r).ax_buffer.length
    · by_cases hp : (detect_peaks (push s r).ax_buffer 2).isEmpty
      · simp [h, hp, List.isEmpty_iff.mp hp]
      · simp only [List.isEmpty_iff] at hp
        simp [h, hp, List.isEmpty_iff]
    · simp [h]
  · rw [pd_peak_values]
    by_cases h : 20 ≤ (push s r).ax_buffer.length
    · by_cases hp : (detect_peaks (push s r).ax_buffer 2).isEmpty
      · simp [h, hp, List.isEmpty_iff.mp hp]
      · simp only [List.isEmpty_iff] at hp
        simp [h, hp, List.isEmpty_iff]
    · simp [h]

/-- C2 counterexample: after pushing 20 all-zero samples, the window size is
20 (meeting the claimed threshold for the time-domain peak fields), yet the
produced frame has neither `peaks_detected` nor `peak_values`: field
presence does not follow from the window size alone. -/
theorem claim2_counterexample :
    (push (runState (List.replicate 19 rz)) rz).ax_buffer.length = 20 ∧
    (process_data (runState (List.replicate 19 rz)) rz).2.peaks_detected = none ∧
    (process_data (runState (List.replicate 19 rz)) rz).2.peak_values = none := by
  refine ⟨?_, ?_, ?_⟩ <;>
    norm_num [runState, initState, push, convert_to_g, ACCEL_SCALE,
      buffer_size, List.replicate, rz, List.foldl, process_data, detect_peaks,
      qmean, qvar, gtSqrt, List.range']

/-- C9: the unit conversions are exactly division by the fixed scale
constants, losslessly over the embedded exact arithmetic (multiplying back
recovers the raw count), with no side effects or error path (they are total
pure functions). -/
theorem claim9_unit_conversions (r : ℤ) :
    convert_to_g r = (r : ℚ) / 16384 ∧
    convert_to_dps r = (r : ℚ) / 131 ∧
    convert_to_g r * 16384 = (r : ℚ) ∧
    convert_to_dps r * 131 = (r : ℚ) := by
  refine ⟨rfl, rfl, ?_, ?_⟩
  · rw [convert_to_g, ACCEL_SCALE, div_mul_cancel₀]
    norm_num
  · rw [convert_to_dps, GYRO_SCALE, div_mul_cancel₀]
    norm_num

theorem gtSqrt_iff (a b : ℚ) :
    gtSqrt a b = true ↔ Real.sqrt (b : ℝ) < (a : ℝ) := by
  rw [gtSqrt, decide_eq_true_eq]
  constructor
  · rintro ⟨ha, hb⟩
    have ha' : (0 : ℝ) < (a : ℝ) := by exact_mod_cast ha
    rw [Real.sqrt_lt' ha']
    exact_mod_cast hb
  · intro h
    have ha' : (0 : ℝ) < (a : ℝ) := lt_of_le_of_lt (Real.sqrt_nonneg _) h
    have hb' := (Real.sqrt_lt' ha').mp h
    exact ⟨by exact_mod_cast ha', by exact_mod_cast hb'⟩

theorem sqrt_four_mul (v : ℚ) :
    Real.sqrt ((4 * v : ℚ) : ℝ) = 2 * Real.sqrt ((v : ℚ) : ℝ) := by
  have h4 : Real.sqrt 4 = 2 := by
    rw [show (4 : ℝ) = 2 ^ 2 by norm_num, Real.sqrt_sq (by norm_num : (0:ℝ) ≤ 2)]
  push_cast
  rw [Real.sqrt_mul (by norm_num : (0:ℝ) ≤ 4) _, h4]

/-- The rational acceptance test of `detect_peaks` agrees with the float
comparison `x > mean + 2 * std` of the source. -/
theorem accept_iff (x m v : ℚ) :
    gtSqrt (x - m) (2 ^ 2 * v) = true ↔
      (m : ℝ) + 2 * Real.sqrt ((v : ℚ) : ℝ) < (x : ℝ) := by
  rw [gtSqrt_iff]
  have hc : ((2 ^ 2 * v : ℚ) : ℝ) = ((4 * v : ℚ) : ℝ) := by norm_num
  rw [hc, sqrt_four_mul]
  push_cast
  constructor
  · intro h; linarith
  · intro h; linarith

/-- Full membership characterization of `detect_peaks` at the call-site
threshold 2. -/
theorem detect_peaks_mem (buffer : List ℚ) (i : ℕ) :
    i ∈ detect_peaks buffer 2 ↔
      (3 ≤ buffer.length ∧ 1 ≤ i ∧ i < buffer.length - 1 ∧
       buffer.getD (i - 1) 0 < buffer.getD i 0 ∧
       buffer.getD (i + 1) 0 < buffer.getD i 0 ∧
       (qmean buffer : ℝ) + 2 * Real.sqrt ((qvar buffer : ℚ) : ℝ) <
         ((buffer.getD i 0 : ℚ) : ℝ)) := by
  rw [detect_peaks]
  by_cases h3 : buffer.length < 3
  · rw [if_pos h3]
    simp only [List.not_mem_nil, false_iff]
    rintro ⟨hl, -⟩
    omega
  · rw [if_neg h3]
    rw [List.mem_filter, List.mem_range'_1]
    simp only [Bool.and_eq_true, decide_eq_true_eq, accept_iff]
    constructor
    · rintro ⟨⟨hi1, hi2⟩, ⟨hl, hr⟩, hacc⟩
      exact ⟨by omega, hi1, by omega, hl, hr, hacc⟩
    · rintro ⟨-, hi1, hi2, hl, hr, hacc⟩
      exact ⟨⟨hi1, by omega⟩, ⟨hl, hr⟩, hacc⟩

/-- C6: for a window of at least 20 samples, `detect_peaks` marks exactly
the interior indices strictly above both neighbours that also exceed
`mean + 2 * std`, and a frame that carries `peak_values` reports the window
values of at most the 3 most recent (last) accepted peak indices. -/
theorem claim6_time_domain_peaks :
    (∀ buffer : List ℚ, 20 ≤ buffer.length → ∀ i : ℕ,
      (i ∈ detect_peaks buffer 2 ↔
        (1 ≤ i ∧ i < buffer.length - 1 ∧
         buffer.getD (i - 1) 0 < buffer.getD i 0 ∧
         buffer.getD (i + 1) 0 < buffer.getD i 0 ∧
         (qmean buffer : ℝ) + 2 * Real.sqrt ((qvar buffer : ℚ) : ℝ) <
           ((buffer.getD i 0 : ℚ) : ℝ)))) ∧
    (∀ (s : BufState) (r : RawSample) (vs : List ℚ),
      (process_data s r).2.peak_values = some vs →
        vs.length ≤ 3 ∧
        vs = (takeLast 3 (detect_peaks (push s r).ax_buffer 2)).map
          (fun i => (push s r).ax_buffer.getD i 0) ∧
        20 ≤ (push s r).ax_buffer.length) := by
  constructor
  · intro buffer h20 i
    rw [detect_peaks_mem]
    constructor
    · rintro ⟨-, h⟩; exact h
    · intro h; exact ⟨by omega, h⟩
  · intro s r vs h
    rw [pd_peak_values] at h
    by_cases h20 : 20 ≤ (push s r).ax_buffer.length
    · rw [if_pos h20] at h
      by_cases hp : (detect_peaks (push s r).ax_buffer 2).isEmpty
      · rw [if_pos hp] at h
        exact absurd h (by simp)
      · rw [if_neg hp] at h
        have hvs := (Option.some.inj h).symm
        refine ⟨?_, hvs, h20⟩
        rw [hvs]
        simp only [List.length_map, takeLast_length]
        omega
    · rw [if_neg h20] at h
      exact absurd h (by simp)

/-- Witness for C6 at a concrete 20-sample window with one accepted spike. -/
theorem claim6_witness :
    (10 ∈ detect_peaks spiky20 2 ↔
      (1 ≤ 10 ∧ 10 < spiky20.length - 1 ∧
       spiky20.getD (10 - 1) 0 < spiky20.getD 10 0 ∧
       spiky20.getD (10 + 1) 0 < spiky20.getD 10 0 ∧
       (qmean spiky20 : ℝ) + 2 * Real.sqrt ((qvar spiky20 : ℚ) : ℝ) <
         ((spiky20.getD 10 0 : ℚ) : ℝ))) ∧
    (([(10 : ℚ)]).length ≤ 3 ∧
     [(10 : ℚ)] = (takeLast 3 (detect_peaks (push spikyState rz).ax_buffer 2)).map
       (fun i => (push spikyState rz).ax_buffer.getD i 0) ∧
     20 ≤ (push spikyState rz).ax_buffer.length) := by
  constructor
  · exact claim6_time_domain_peaks.1 spiky20
      (by norm_num [spiky20, List.replicate]) 10
  · refine claim6_time_domain_peaks.2 spikyState rz [(10 : ℚ)] ?_
    norm_num [process_data, push, spikyState, rz, convert_to_g, ACCEL_SCALE,
      buffer_size, List.replicate, detect_peaks, qmean, qvar, gtSqrt,
      List.range', takeLast]

theorem magnitudeList_map {β : Type} (w : List β) (fx fy fz : β → ℚ) :
    magnitudeList (w.map fx) (w.map fy) (w.map fz) =
      w.map fun b => magnitudeR (fx b) (fy b) (fz b) := by
  rw [magnitudeList, List.zip_map', List.zip_map', List.map_map]
  rfl

/-- C7: for every processed sample, the frame field `mean_magnitude` is the
arithmetic mean of the per-sample magnitudes over the whole current window,
and (second conjunct) it differs in general from the magnitude of the
per-axis means: with window ax values `[1, -1]` the mean of magnitudes is 1
while the magnitude of the means is 0. -/
theorem claim7_mean_magnitude :
    (∀ (l : List RawSample) (r : RawSample),
      (process_data (runState l) r).2.mean_magnitude =
        some (((takeLast buffer_size (l ++ [r])).map fun x =>
            magnitudeR (convert_to_g x.ax_raw) (convert_to_g x.ay_raw)
              (convert_to_g x.az_raw)).sum /
          (((takeLast buffer_size (l ++ [r])).length : ℝ)))) ∧
    ((process_data (runState [rOne]) rNegOne).2.mean_magnitude ≠
      some (Real.sqrt
        ((((process_data (runState [rOne]) rNegOne).2.mean_ax.getD 0) ^ 2 +
          ((process_data (runState [rOne]) rNegOne).2.mean_ay.getD 0) ^ 2 +
          ((process_data (runState [rOne]) rNegOne).2.mean_az.getD 0) ^ 2 :
            ℚ) : ℝ))) := by
  constructor
  · intro l r
    rw [pd_mean_magnitude, ← runState_append, runState_eq (l ++ [r])]
    have hlen : (takeLast buffer_size
        ((l ++ [r]).map fun x => convert_to_g x.ax_raw)).length =
        min buffer_size (l.length + 1) := by
      simp [takeLast_length]
    rw [if_neg (by
      simp only [List.isEmpty_iff]
      intro hnil
      rw [hnil] at hlen
      simp only [List.length_nil] at hlen
      have : 0 < buffer_size := by norm_num [buffer_size]
      omega)]
    rw [takeLast_map, takeLast_map, takeLast_map, magnitudeList_map]
    simp
  · have hbuf : push (runState [rOne]) rNegOne =
        ⟨[1, -1], [0, 0], [0, 0], [0, 1]⟩ := by
      norm_num [runState, initState, push, rOne, rNegOne, convert_to_g,
        ACCEL_SCALE, buffer_size, List.foldl]
    rw [pd_mean_magnitude, pd_mean_ax, pd_mean_ay, pd_mean_az, hbuf]
    norm_num [magnitudeList, magnitudeR, qmean, List.zip, Real.sqrt_one,
      Real.sqrt_zero]

/-- C4: in one publish every currently registered subscriber is attempted
exactly once; a subscriber that does not fail is delivered to even when
others fail; a failing subscriber leaves the set during that same publish,
as does an explicit unregister; and a subscriber not in the set (because it
failed or unregistered) that never re-registers receives no delivery of any
subsequent publish. -/
theorem claim4_broadcast :
    (∀ (s fails : Finset ℕ) (c : ℕ),
      (attempts s (HubEvent.publish fails)).count c = if c ∈ s then 1 else 0) ∧
    (∀ (s fails : Finset ℕ) (c : ℕ), c ∈ s → c ∉ fails →
      c ∈ delivered s fails) ∧
    (∀ (s fails : Finset ℕ) (c : ℕ), c ∈ fails →
      c ∉ hubStep s (HubEvent.publish fails)) ∧
    (∀ (s : Finset ℕ) (c : ℕ), c ∉ hubStep s (HubEvent.unregister c)) ∧
    (∀ (s : Finset ℕ) (evs : List HubEvent) (c : ℕ), c ∉ s →
      HubEvent.register c ∉ evs →
      (∀ d ∈ pubDeliveries s evs, c ∉ d) ∧ c ∉ hubRun s evs) := by
  refine ⟨?_, ?_, ?_, ?_, ?_⟩
  · intro s fails c
    by_cases h : c ∈ s
    · rw [if_pos h]
      exact List.count_eq_one_of_mem (Finset.sort_nodup _ _)
        ((Finset.mem_sort _).mpr h)
    · rw [if_neg h]
      exact List.count_eq_zero_of_not_mem fun hc =>
        h ((Finset.mem_sort _).mp hc)
  · intro s fails c hs hf
    exact Finset.mem_sdiff.mpr ⟨hs, hf⟩
  · intro s fails c hf hc
    exact (Finset.mem_sdiff.mp hc).2 hf
  · intro s c
    exact Finset.not_mem_erase c s
  · intro s evs
    induction evs generalizing s with
    | nil =>
        intro c hc _
        exact ⟨fun d hd => absurd hd (by simp [pubDeliveries]), hc⟩
    | cons e t ih =>
        intro c hc hreg
        have hrt : HubEvent.register c ∉ t := fun h => hreg (List.mem_cons_of_mem _ h)
        have hre : e ≠ HubEvent.register c := fun h => hreg (h ▸ List.mem_cons_self _ _)
        have hstep : c ∉ hubStep s e := by
          cases e with
          | register b =>
              have hbc : b ≠ c := fun h => hre (by rw [h])
              simp only [hubStep, Finset.mem_insert]
              rintro (h | h)
              · exact hbc h.symm
              · exact hc h
          | unregister b =>
              exact fun h => hc (Finset.mem_of_mem_erase h)
          | publish f =>
              exact fun h => hc (Finset.mem_sdiff.mp h).1
        obtain ⟨ihd, ihr⟩ := ih (hubStep s e) c hstep hrt
        refine ⟨?_, ihr⟩
        intro d hd
        cases e with
        | register b =>
            rw [pubDeliveries] at hd
            exact ihd d hd
        | unregister b =>
            rw [pubDeliveries] at hd
            exact ihd d hd
        | publish f =>
            rw [pubDeliveries] at hd
            rcases List.mem_cons.mp hd with h | h
            · rw [h]
              exact fun hmem => hc (Finset.mem_sdiff.mp hmem).1
            · exact ihd d h

/-- Witness for C4 on concrete subscriber sets and event traces. -/
theorem claim4_broadcast_witness :
    ((attempts {1, 2} (HubEvent.publish {2})).count 2 =
      if 2 ∈ ({1, 2} : Finset ℕ) then 1 else 0) ∧
    (1 ∈ delivered {1, 2} {2}) ∧
    (2 ∉ hubStep {1, 2} (HubEvent.publish {2})) ∧
    (2 ∉ hubStep {1, 2} (HubEvent.unregister 2)) ∧
    ((∀ d ∈ pubDeliveries {1} [HubEvent.publish ∅, HubEvent.register 3],
        (2 : ℕ) ∉ d) ∧
      (2 : ℕ) ∉ hubRun {1} [HubEvent.publish ∅, HubEvent.register 3]) :=
  ⟨claim4_broadcast.1 {1, 2} {2} 2,
   claim4_broadcast.2.1 {1, 2} {2} 1 (by decide) (by decide),
   claim4_broadcast.2.2.1 {1, 2} {2} 2 (by decide),
   claim4_broadcast.2.2.2.1 {1, 2} 2,
   claim4_broadcast.2.2.2.2 {1} [HubEvent.publish ∅, HubEvent.register 3] 2
     (by decide) (by decide)⟩

theorem foldl_appendRec (frames : List RecFrame) (st : RecState)
    (h : st.recording = true) :
    frames.foldl appendRec st = ⟨true, st.rows ++ frames.map rowOf⟩ := by
  induction frames generalizing st with
  | nil =>
      cases st with
      | mk rec rows => cases h; simp
  | cons f t ih =>
      cases st with
      | mk rec rows =>
          cases h
          rw [List.foldl_cons, appendRec, if_pos rfl,
            ih ⟨true, rows ++ [rowOf f]⟩ rfl]
          simp

/-- C5: starting a session, appending N frames and stopping produces exactly
the header row followed by the N data rows in order; each data row has the
fixed column layout of `rowOf` with the frame timestamp in column 2 and `0`
substituted for a missing `mean_magnitude`/`rms_magnitude`. -/
theorem claim5_recording_rows (frames : List RecFrame) :
    (stopRec (frames.foldl appendRec startRec)).rows =
      headerRow :: frames.map rowOf ∧
    (stopRec (frames.foldl appendRec startRec)).rows.length =
      frames.length + 1 ∧
    (∀ i, i < frames.length →
      ((frames.map rowOf).getD i []).getD 2 (Cell.s "") =
        Cell.i ((frames.getD i default).timestamp_ms)) := by
  have h := foldl_appendRec frames startRec rfl
  refine ⟨?_, ?_, ?_⟩
  · rw [stopRec, h]
    simp [startRec]
  · rw [stopRec, h]
    simp [startRec]
  · intro i hi
    have h1 : (frames.map rowOf).getD i [] = rowOf (frames.getD i default) := by
      rw [List.getD_eq_getElem _ _ (by simpa using hi),
        List.getD_eq_getElem _ _ hi]
      simp
    rw [h1]
    rfl

/-- Witness for C5 at a concrete one-frame session. -/
theorem claim5_recording_rows_witness :
    (stopRec ([exFrame].foldl appendRec startRec)).rows =
      headerRow :: [exFrame].map rowOf ∧
    (([exFrame].map rowOf).getD 0 []).getD 2 (Cell.s "") =
      Cell.i (([exFrame].getD 0 default).timestamp_ms) :=
  ⟨(claim5_recording_rows [exFrame]).1,
   (claim5_recording_rows [exFrame]).2.2 0 (by norm_num)⟩

/-- C8: the flat branch of the decoder is total (it returns an `Option`, the
embedding of never raising past its boundary), succeeds exactly when the
stripped line splits into at least 7 comma-separated fields whose first 7
all parse as integers, and on success returns exactly those 7 integers in
order. -/
theorem claim8_flat_decoder (line : List Char) :
    ((parse_flat line).isSome = true ↔
      (7 ≤ (splitComma (trimChars line)).length ∧
       (pyInt ((splitComma (trimChars line)).getD 0 [])).isSome = true ∧
       (pyInt ((splitComma (trimChars line)).getD 1 [])).isSome = true ∧
       (pyInt ((splitComma (trimChars line)).getD 2 [])).isSome = true ∧
       (pyInt ((splitComma (trimChars line)).getD 3 [])).isSome = true ∧
       (pyInt ((splitComma (trimChars line)).getD 4 [])).isSome = true ∧
       (pyInt ((splitComma (trimChars line)).getD 5 [])).isSome = true ∧
       (pyInt ((splitComma (trimChars line)).getD 6 [])).isSome = true )) ∧
    (∀ smp : RawSample, parse_flat line = some smp →
      pyInt ((splitComma (trimChars line)).getD 0 []) = some smp.timestamp_ms ∧
      pyInt ((splitComma (trimChars line)).getD 1 []) = some smp.ax_raw ∧
      pyInt ((splitComma (trimChars line)).getD 2 []) = some smp.ay_raw ∧
      pyInt ((splitComma (trimChars line)).getD 3 []) = some smp.az_raw ∧
      pyInt ((splitComma (trimChars line)).getD 4 []) = some smp.gx_raw ∧
      pyInt ((splitComma (trimChars line)).getD 5 []) = some smp.gy_raw ∧
      pyInt ((splitComma (trimChars line)).getD 6 []) = some smp.gz_raw ) := by
  by_cases hlen : 7 ≤ (splitComma (trimChars line)).length
  case neg => simp [parse_flat, hlen]
  case pos =>
    obtain ⟨p0, p1, p2, p3, p4, p5, p6, rest, hp⟩ :
        ∃ p0 p1 p2 p3 p4 p5 p6 rest,
          splitComma (trimChars line) =
            p0 :: p1 :: p2 :: p3 :: p4 :: p5 :: p6 :: rest := by
      rcases hsp : splitComma (trimChars line) with
        _ | ⟨a0, _ | ⟨a1, _ | ⟨a2, _ | ⟨a3, _ | ⟨a4, _ | ⟨a5, _ | ⟨a6, r⟩⟩⟩⟩⟩⟩⟩ <;>
        first
          | exact ⟨a0, a1, a2, a3, a4, a5, a6, r, rfl⟩
          | (exfalso; rw [hsp] at hlen; simp at hlen)
    unfold parse_flat
    rw [hp]
    simp only [List.getD_cons_zero, List.getD_cons_succ]
    rw [if_pos (by simp)]
    rcases h0 : pyInt p0 with _ | v0
    · simp [h0]
    rw [Option.some_bind]
    rcases h1 : pyInt p1 with _ | v1
    · simp [h1]
    rw [Option.some_bind]
    rcases h2 : pyInt p2 with _ | v2
    · simp [h2]
    rw [Option.some_bind]
    rcases h3 : pyInt p3 with _ | v3
    · simp [h3]
    rw [Option.some_bind]
    rcases h4 : pyInt p4 with _ | v4
    · simp [h4]
    rw [Option.some_bind]
    rcases h5 : pyInt p5 with _ | v5
    · simp [h5]
    rw [Option.some_bind]
    rcases h6 : pyInt p6 with _ | v6
    · simp [h6]
    rw [Option.some_bind]
    constructor
    · simp
    · intro smp h
      rw [← Option.some.inj h]
      exact ⟨rfl, rfl, rfl, rfl, rfl, rfl, rfl⟩

theorem plEnd_stop {α : Type} [LinearOrder α] (x : ℕ → α) (imax : ℕ) (v : α)
    (fuel j : ℕ) (hf : 0 < fuel) (h : ¬(j < imax ∧ x j = v)) :
    plEnd x imax v fuel j = j := by
  cases fuel with
  | zero => omega
  | succ f => rw [plEnd, if_neg h]

/-- When no two adjacent values are equal, the scipy local-maxima walk from
index `i` (with enough fuel) returns exactly the interior indices strictly
above both neighbours. -/
theorem lmaxAux_adjacent_distinct {α : Type} [LinearOrder α] (x : ℕ → α)
    (imax : ℕ) (hadj : ∀ k, k + 1 ≤ imax → x k ≠ x (k + 1)) :
    ∀ fuel i : ℕ, 1 ≤ i → imax ≤ fuel + i →
      lmaxAux x imax fuel i =
        (List.range' i (imax - i)).filter fun k =>
          decide (x (k - 1) < x k) && decide (x (k + 1) < x k) := by
  intro fuel
  induction fuel with
  | zero =>
      intro i h1 hle
      rw [lmaxAux, show imax - i = 0 by omega]
      rfl
  | succ fuel ih =>
      intro i h1 hle
      rw [lmaxAux]
      by_cases hi : i < imax
      case neg =>
        rw [if_neg hi, show imax - i = 0 by omega]
        rfl
      case pos =>
        rw [if_pos hi]
        have hj : plEnd x imax (x i) imax (i + 1) = i + 1 := by
          refine plEnd_stop x imax (x i) imax (i + 1) (by omega) ?_
          rintro ⟨hlt, heq⟩
          exact hadj i (by omega) heq.symm
        rw [hj]
        have hrange : List.range' i (imax - i) =
            i :: List.range' (i + 1) (imax - i - 1) := by
          rw [show imax - i = (imax - i - 1) + 1 by omega, List.range'_succ]
          simp only [Nat.add_sub_cancel]
        rw [hrange, List.filter_cons]
        by_cases hl : x (i - 1) < x i
        case pos =>
          by_cases hr : x (i + 1) < x i
          case pos =>
            rw [if_pos hl, if_pos hr, if_pos (by simp [hl, hr]),
              show (i + (i + 1 - 1)) / 2 = i by omega]
            congr 1
            by_cases hii : i + 1 < imax
            · have hrange2 : List.range' (i + 1) (imax - i - 1) =
                  (i + 1) :: List.range' (i + 2) (imax - i - 2) := by
                rw [show imax - i - 1 = (imax - i - 2) + 1 by omega,
                  List.range'_succ]
              rw [hrange2, List.filter_cons,
                if_neg (by simp [Nat.add_sub_cancel, lt_asymm hr]),
                ih (i + 2) (by omega) (by omega),
                show imax - (i + 2) = imax - i - 2 by omega]
            · rw [ih (i + 2) (by omega) (by omega),
                show imax - (i + 2) = 0 by omega,
                show imax - i - 1 = 0 by omega]
              rfl
          case neg =>
            rw [if_pos hl, if_neg hr, if_neg (by simp [hr]),
              ih (i + 1) (by omega) (by omega),
              show imax - (i + 1) = imax - i - 1 by omega]
        case neg =>
          rw [if_neg hl, if_neg (by simp [hl]),
            ih (i + 1) (by omega) (by omega),
            show imax - (i + 1) = imax - i - 1 by omega]

/-- Under pairwise-distinct adjacent values, the scipy local maxima of a
list are exactly its interior strict local maxima. -/
theorem localMaxima_eq_strictPeaks (xs : List ℚ)
    (hadj : ∀ k, k + 1 < xs.length → xs.getD k 0 ≠ xs.getD (k + 1) 0) :
    localMaxima xs 0 = strictPeaks xs := by
  rw [localMaxima, strictPeaks,
    lmaxAux_adjacent_distinct (fun i => xs.getD i 0) (xs.length - 1)
      (fun k hk => hadj k (by omega)) xs.length 1 (by omega) (by omega),
    show xs.length - 1 - 1 = xs.length - 2 by omega]

/-- C3 counterexample: on the 6-bin spectrum `[100, 0, 1, 0, 0, 0]` the code
reports no spectral peak (the height bound `max(fft_amp) * 0.1 = 10` uses
the maximum over the WHOLE spectrum, DC bin included), while the claim
(threshold from the searched non-DC range, so `0.1`) predicts the peak
`(freq 2, amp 1)`. -/
theorem claim3_counterexample :
    5 < (ceAmps : List ℚ).length ∧
    fft_peaks_of ceFreqs (ceAmps : List ℚ) = [] ∧
    claimFftPeaks ceFreqs ceAmps = [(2, 1)] := by
  refine ⟨by norm_num [ceAmps], ?_, ?_⟩
  · norm_num [fft_peaks_of, find_peaks, localMaxima, lmaxAux, plEnd, listMax,
      ceAmps, ceFreqs, List.getD]
  · norm_num [claimFftPeaks, strictPeaks, listMax, ceAmps, ceFreqs,
      List.getD, List.range']

/-- C3 (amended): for spectra with more than 5 bins whose searched (non-DC)
range has no two equal adjacent bins, the reported spectral peaks are
exactly the interior strict local maxima of the non-DC range whose
amplitude is AT LEAST 10 percent of the maximum over the WHOLE spectrum
(DC bin included), reported as (frequency, amplitude) at bin `i + 1`. -/
theorem claim3_spectral_peaks (fft_freq fft_amp : List ℚ)
    (_h5 : 5 < fft_amp.length)
    (hadj : ∀ k, k + 1 < (fft_amp.drop 1).length →
      (fft_amp.drop 1).getD k 0 ≠ (fft_amp.drop 1).getD (k + 1) 0) :
    fft_peaks_of fft_freq fft_amp =
      ((strictPeaks (fft_amp.drop 1)).filter fun i =>
          decide (listMax 0 fft_amp * (1 / 10) ≤ (fft_amp.drop 1).getD i 0)).map
        fun i => (fft_freq.getD (i + 1) 0, fft_amp.getD (i + 1) 0) := by
  rw [fft_peaks_of, find_peaks, localMaxima_eq_strictPeaks _ hadj]

/-- Witness for C3 on a concrete 7-bin spectrum with pairwise-distinct
adjacent searched bins. -/
theorem claim3_spectral_peaks_witness :
    fft_peaks_of wFreqs (wAmps : List ℚ) =
      ((strictPeaks ((wAmps : List ℚ).drop 1)).filter fun i =>
          decide (listMax 0 (wAmps : List ℚ) * (1 / 10) ≤
            ((wAmps : List ℚ).drop 1).getD i 0)).map
        fun i => (wFreqs.getD (i + 1) 0, (wAmps : List ℚ).getD (i + 1) 0) := by
  refine claim3_spectral_peaks wFreqs wAmps (by norm_num [wAmps]) ?_
  intro k hk
  have hk5 : k < 5 := by
    norm_num [wAmps] at hk
    omega
  interval_cases k <;> norm_num [wAmps, List.getD]

/-- Witness for C8 at the concrete line `1,2,3,4,5,6,7`. -/
theorem claim8_flat_decoder_witness :
    pyInt ((splitComma (trimChars exLine)).getD 0 []) = some 1 ∧
    pyInt ((splitComma (trimChars exLine)).getD 1 []) = some 2 ∧
    pyInt ((splitComma (trimChars exLine)).getD 2 []) = some 3 ∧
    pyInt ((splitComma (trimChars exLine)).getD 3 []) = some 4 ∧
    pyInt ((splitComma (trimChars exLine)).getD 4 []) = some 5 ∧
    pyInt ((splitComma (trimChars exLine)).getD 5 []) = some 6 ∧
    pyInt ((splitComma (trimChars exLine)).getD 6 []) = some 7 :=
  (claim8_flat_decoder exLine).2 ⟨1, 2, 3, 4, 5, 6, 7⟩ (by decide)

end MPU
